import Mathlib

/-!
Shallow embedding of `tools/multi.py` (bootstrap confidence intervals and
the Dask feature/timing pipeline), with theorems checking the spec's claims
about it.  Machine floats are modelled as rationals; external library
routines (scipy's normal distribution, numpy's RNG) are passed in as
explicit function parameters.
-/

namespace Multi

/-! ### Decimal rendering (model of Python's `str` / `"{:02d}".format`) -/

/-- Decimal digit list of a natural number, most significant first
(model of Python's `str(n)` for a non-negative `n`). -/
def natDigits (n : ℕ) : List Char :=
  if h : n < 10 then [Nat.digitChar n]
  else natDigits (n / 10) ++ [Nat.digitChar (n % 10)]
decreasing_by exact Nat.div_lt_self (by omega) (by omega)

/-- Model of Python's `str(n)` for a natural number. -/
def natToString (n : ℕ) : String := ⟨natDigits n⟩

/-- Model of Python's `"{:02d}".format(n)`: zero-pad to width two. -/
def format02d (n : ℕ) : String :=
  if n < 10 then ⟨'0' :: natDigits n⟩ else natToString n

/-- Model of `"{:02d}:{:02d}:{:02d}".format(a, b, c)`. -/
def fmtHMS (a b c : ℕ) : String :=
  format02d a ++ ":" ++ format02d b ++ ":" ++ format02d c

/-! ### The H:M:S lookup table built in `parquets_dask.__init__` -/

/-- `time_stamps`: the list of `"{:02d}:{:02d}:{:02d}"` strings over
`product(range(24), range(60), range(60))`, in product order. -/
def time_stamps : List String :=
  (List.range 24).flatMap fun a =>
    (List.range 60).flatMap fun b =>
      (List.range 60).map fun c => fmtHMS a b c

/-- `time_dict = dict(zip(time_stamps, range(len(time_stamps))))`,
as an association list (keys are pairwise distinct, so the dict and the
association list agree). -/
def time_dict : List (String × ℕ) :=
  time_stamps.zip (List.range time_stamps.length)

/-- Lookup in `time_dict` (`Series.map` over the dict: missing keys give
no value). -/
def timeLookup (s : String) : Option ℕ := time_dict.lookup s

/-- The key at position `n` of `time_stamps`. -/
def hmsKey (n : ℕ) : String := fmtHMS (n / 3600) (n % 3600 / 60) (n % 60)

/-! ### Aggregation granularity and timing (`parquets_dask`) -/

/-- The three aggregation levels `"dfi"`, `"hfi"`, `"mfi"`. -/
inductive AggLvl
  | dfi
  | hfi
  | mfi
deriving DecidableEq

/-- `from_days = dict(zip(["dfi","hfi","mfi"], [1, 24, 1440]))`. -/
def from_days : AggLvl → ℚ
  | .dfi => 1
  | .hfi => 24
  | .mfi => 1440

/-- `from_seconds = dict(zip(["dfi","hfi","mfi"], [60*60*24, 60*60, 60]))`. -/
def from_seconds : AggLvl → ℚ
  | .dfi => 60 * 60 * 24
  | .hfi => 60 * 60
  | .mfi => 60

/-- `get_visit_timing` for one entity:
`out[agg_level] = id_table[day_col] * from_days[agg_level]`. -/
def get_visit_timing (agg_level : AggLvl) (days_from_index : ℚ) : ℚ :=
  days_from_index * from_days agg_level

/-- `get_timing` for one record: start from the joined visit timing,
optionally add `los * from_days` (end-of-visit anchoring), return early if
there is no day column, otherwise add `day * from_days` and optionally the
intra-day term `time_dict[time] / from_seconds`.  A time string missing
from the table yields no value. -/
def get_timing_row (agg_level : AggLvl) (visit_timing : ℚ)
    (end_of_visit : Bool) (los : ℚ)
    (day : Option ℚ) (time : Option String) : Option ℚ :=
  let t0 := if end_of_visit then visit_timing + los * from_days agg_level
            else visit_timing
  match day with
  | none => some t0
  | some d =>
    let t1 := t0 + d * from_days agg_level
    match time with
    | none => some t1
    | some ts =>
      (timeLookup ts).map fun (secs : ℕ) => t1 + (secs : ℚ) / from_seconds agg_level

/-- A handle to a table held by the pipeline: either a (lazy or concrete)
dataframe, or a `distributed` Future returned by `client.compute`.
Column subscripting (`table[col]`) works on dataframes only; `.result()`
works on Futures only — using the wrong one raises. -/
inductive Handle (α : Type)
  | frame (val : α)
  | future (val : α)

/-- `get_visit_timing(self.id)` over the whole id table (the pure
recomputation, applied to the underlying entries). -/
def get_visit_timing_table (agg_level : AggLvl) (id_days : List (ℕ × ℚ)) :
    List (ℕ × ℚ) :=
  id_days.map fun p => (p.1, get_visit_timing agg_level p.2)

/-- The `get_visit_timing` method applied to a table handle:
`out = id_table[day_col].to_frame(); out[agg_lvl] = out[day_col] *
from_days[agg_lvl]`.  The first subscript raises a TypeError when the
handle is a `distributed` Future, since Futures are not subscriptable. -/
def get_visit_timing_dask (agg_level : AggLvl)
    (id_table : Handle (List (ℕ × ℚ))) : Except String (List (ℕ × ℚ)) :=
  match id_table with
  | .frame t => .ok (get_visit_timing_table agg_level t)
  | .future _ => .error ("TypeError: a distributed Future is not subscriptable")

/-- The mutable pipeline state of `parquets_dask` that the timing methods
touch: the aggregation level, the `self.id` handle, and the cached
`self.visit_timing` handle. -/
structure PipelineState where
  agg_level : AggLvl
  id : Handle (List (ℕ × ℚ))
  visit_timing : Handle (List (ℕ × ℚ))

/-- `__init__` (lines 408–414): `self.agg_level = agg_lvl`;
`self.visit_timing = self.client.compute(self.get_visit_timing(self.id))`
is computed while `self.id` is still a lazy dataframe and wrapped in a
Future; then `self.id = self.client.compute(self.id)` leaves `self.id` a
Future from here on. -/
def init_state (agg_lvl : AggLvl) (id_days : List (ℕ × ℚ)) : PipelineState :=
  { agg_level := agg_lvl
    id := .future id_days
    visit_timing := .future (get_visit_timing_table agg_lvl id_days) }

/-- `reset_agg_level`: `self.agg_level = new_level` runs first, then
`self.visit_timing = self.get_visit_timing(self.id)` — which subscripts
`self.id` and, unlike `__init__`, does not wrap the result in
`client.compute`.  Returns the state as left after the call, paired with
the raised error if any (the `agg_level` mutation survives a raise). -/
def reset_agg_level (st : PipelineState) (new_level : AggLvl) :
    PipelineState × Option String :=
  match get_visit_timing_dask new_level st.id with
  | .ok vt => ({ st with agg_level := new_level, visit_timing := .frame vt }, none)
  | .error e => ({ st with agg_level := new_level }, some e)

/-- `get_timing` as run against the pipeline state:
`out.join(self.visit_timing.result(), ...)` (line 579) — `.result()`
exists on a Future only, so a plain dataframe handle raises; on a Future,
join the record against the computed table and compute. -/
def state_get_timing (st : PipelineState) (pat : ℕ) (end_of_visit : Bool)
    (los : ℚ) (day : Option ℚ) (time : Option String) :
    Except String (Option ℚ) :=
  match st.visit_timing with
  | .future vt =>
    .ok ((vt.lookup pat).bind fun v =>
      get_timing_row st.agg_level v end_of_visit los day time)
  | .frame _ =>
    .error ("AttributeError: a dask dataframe has no result attribute")

/-! ### `get_times` (uint32 day arithmetic) -/

/-- `np.uint32` cast of a (possibly negative) integer: reduce mod `2^32`. -/
def u32 (z : ℤ) : ℕ := (z % (2 ^ 32)).toNat

/-- The day branch of `get_times`:
`dfi = np.array(dfi_orig + df[day_col], dtype=np.uint32)`,
`hfi = dfi * 24`, `mfi = hfi * 60`, all in uint32 arithmetic. -/
def get_times_day (dfi_orig day : ℤ) : ℕ × ℕ × ℕ :=
  let dfi := u32 (dfi_orig + day)
  let hfi := dfi * 24 % 2 ^ 32
  let mfi := hfi * 60 % 2 ^ 32
  (dfi, hfi, mfi)

/-! ### Bootstrap confidence intervals (`boot_cis`, `boot_roc`) -/

/-- numpy's `nanpercentile` with the code's default
`interpolation="nearest"`: sort, take the entry at the virtual rank
`q/100 * (n-1)` rounded to the nearest integer.  Empty input has no
percentile. -/
def nearestRank (x : ℚ) : ℕ := (⌊x + 1 / 2⌋).toNat

def nanpercentile (xs : List ℚ) (q : ℚ) : Option ℚ :=
  let sorted := xs.mergeSort
  if sorted.isEmpty then none
  else some (sorted.getD (nearestRank (q / 100 * ((sorted.length : ℚ) - 1))) 0)

/-- `method == "pct"` lower bound for one metric column:
`lower = (a / 2) * 100` then `np.nanpercentile(scores, q=lower)`. -/
def pct_lower (scores : List ℚ) (a : ℚ) : Option ℚ :=
  nanpercentile scores ((a / 2) * 100)

/-- `method == "pct"` upper bound: `upper = 100 - lower`. -/
def pct_upper (scores : List ℚ) (a : ℚ) : Option ℚ :=
  nanpercentile scores (100 - (a / 2) * 100)

/-- The BCa adjusted lower percentile rank for one metric:
`zl = norm.ppf(a/2)`, `lterm = (z0 + zl)/(1 - acc*(z0 + zl))`,
`lower_q = norm.cdf(z0 + lterm) * 100`.  `cdf`/`ppf` are scipy's normal
distribution, passed in as parameters. -/
def bca_lower_q (cdf ppf : ℚ → ℚ) (z0 acc a : ℚ) : ℚ :=
  let zl := ppf (a / 2)
  let lterm := (z0 + zl) / (1 - acc * (z0 + zl))
  cdf (z0 + lterm) * 100

/-- The BCa adjusted upper percentile rank:
`zu = norm.ppf(1 - a/2)`, `uterm = (z0 + zu)/(1 - acc*(z0 + zu))`,
`upper_q = norm.cdf(z0 + uterm) * 100`. -/
def bca_upper_q (cdf ppf : ℚ → ℚ) (z0 acc a : ℚ) : ℚ :=
  let zu := ppf (1 - a / 2)
  let uterm := (z0 + zu) / (1 - acc * (z0 + zu))
  cdf (z0 + uterm) * 100

/-- Phases of `boot_cis.__init__`, in source order. -/
inductive Phase
  | point_estimate
  | seed_derivation
  | resampling
  | metric_computation
  | method_check
  | ci_computation
deriving DecidableEq

/-- `methods = ["pct", "diff", "bca"]`. -/
def methods : List String := ["pct", "diff", "bca"]

/-- Control-flow trace of `boot_cis.__init__` as a function of `method`:
the point estimate, the seed derivation, the bootstrap resampling and the
metric computation all run before the `assert method in methods` check;
only then are the confidence intervals computed. -/
def boot_cis_trace (method : String) : List Phase × Option String :=
  let pre := [Phase.point_estimate, Phase.seed_derivation, Phase.resampling,
    Phase.metric_computation]
  if method ∈ methods then (pre ++ [Phase.method_check, Phase.ci_computation], none)
  else (pre ++ [Phase.method_check], some ("Method must be pct, diff, or bca."))

/-- Seed derivation in `boot_cis.__init__`:
`np.random.seed(seed); seeds = np.random.randint(0, 1e6, n)`.
The numpy generator (`randint` as a function of the seed it was seeded
with, the two bounds, and the count) is passed in as a parameter. -/
def derive_seeds (randint : ℕ → ℕ → ℕ → ℕ → List ℕ) (seed n : ℕ) : List ℕ :=
  randint seed 0 1000000 n

/-- Seed derivation in `boot_roc`:
`np.random.seed(seed); seeds = np.random.randint(1, 1e7, n)`. -/
def derive_seeds_roc (randint : ℕ → ℕ → ℕ → ℕ → List ℕ) (seed n : ℕ) : List ℕ :=
  randint seed 1 10000000 n

/-- The bootstrap index sets passed to `tools.boot_sample`, in iteration
order: `boot_input = [(targets, sample_by, None, seed) for seed in seeds]`;
`boots = p.starmap(tools.boot_sample, boot_input)`.  `boot_sample` is the
external sampling primitive `(targets, by, seed) -> index set`. -/
def boot_index_sets (randint : ℕ → ℕ → ℕ → ℕ → List ℕ)
    (boot_sample : List ℚ → Option (List ℚ) → ℕ → List ℕ)
    (targets : List ℚ) (sample_by : Option (List ℚ)) (seed n : ℕ) :
    List (List ℕ) :=
  (derive_seeds randint seed n).map fun s => boot_sample targets sample_by s

/-- Model of a float that may be ±∞ (the output of `norm.ppf`). -/
inductive FVal
  | finite (q : ℚ)
  | pinf
  | ninf
deriving DecidableEq

/-- `z0[np.where(np.isinf(z0))[0]] = 0.0`: infinite bias-correction
values are replaced by zero. -/
def fix_z0 (v : FVal) : ℚ :=
  match v with
  | .finite q => q
  | .pinf => 0
  | .ninf => 0

/-- `zeros = np.where(denom == 0)[0]; for z in zeros: denom[z] += 1e-6`:
a per-metric denominator that is exactly zero gets `1e-6` added. -/
def fix_denom (d : ℚ) : ℚ := if d = 0 then d + 1 / 1000000 else d

/-- `acc = numer / denom` after the zero fix. -/
def acc_of (numer d : ℚ) : ℚ := numer / fix_denom d

/-! ### Feature codec (`col_to_features`, `condense_features`) -/

/-- `pandas.Series.unique`: the distinct values in order of first
appearance. -/
def uniqueVals (l : List String) : List String :=
  l.foldl (fun acc x => if x ∈ acc then acc else acc ++ [x]) []

/-- `col_to_features`: `ftr_codes = [prefix + str(i) for i in range(n)]`;
`code_dict = dict(zip(ftr_codes, unique_codes))` (token → value), as an
association list. -/
def col_to_features (text : List String) ( feature_prefix : String) :
    List (String × String) :=
  let unique_codes := uniqueVals text
  let ftr_codes :=
    (List.range unique_codes.length).map fun i => feature_prefix ++ natToString i
  ftr_codes.zip unique_codes

/-- `condense_features`: `df["ftr"] = df[text_col].map({k: v for v, k in
code_dict.items()})` — each text value is replaced by its token via the
inverted dictionary (values missing from the dictionary map to nothing). -/
def condense_features (text : List String) (code_dict : List (String × String)) :
    List (Option String) :=
  text.map fun v => (code_dict.map fun p => (p.2, p.1)).lookup v

/-! ### Helper lemmas -/

theorem flatMap_range_map {α : Type} (b : ℕ) (g : ℕ → ℕ → α) :
    ∀ a, (List.range a).flatMap (fun i => (List.range b).map (g i)) =
      (List.range (a * b)).map (fun n => g (n / b) (n % b)) := by
  intro a
  induction a with
  | zero => simp
  | succ a ih =>
    rw [List.range_succ, List.flatMap_append, ih, Nat.succ_mul, List.range_add,
      List.map_append, List.map_map]
    congr 1
    simp only [List.flatMap_cons, List.flatMap_nil, List.append_nil]
    apply List.map_congr_left
    intro x hx
    have hxb : x < b := List.mem_range.mp hx
    have hb : 0 < b := by omega
    have hdiv : (a * b + x) / b = a := by
      rw [Nat.add_comm, Nat.mul_comm, Nat.add_mul_div_left _ _ hb,
        Nat.div_eq_of_lt hxb, Nat.zero_add]
    have hmod : (a * b + x) % b = x := by
      rw [Nat.add_comm, Nat.mul_comm, Nat.add_mul_mod_self_left, Nat.mod_eq_of_lt hxb]
    simp [Function.comp, hdiv, hmod]

theorem natDigits_of_lt (n : ℕ) (h : n < 10) : natDigits n = [Nat.digitChar n] := by
  rw [natDigits]; simp [h]

theorem natDigits_of_ge (n : ℕ) (h : 10 ≤ n) :
    natDigits n = natDigits (n / 10) ++ [Nat.digitChar (n % 10)] := by
  rw [natDigits]; simp [Nat.not_lt.mpr h]

theorem natDigits_ne_nil (n : ℕ) : natDigits n ≠ [] := by
  by_cases h : n < 10
  · simp [natDigits_of_lt n h]
  · simp [natDigits_of_ge n (Nat.not_lt.mp h)]

theorem digitChar_inj :
    ∀ a : ℕ, a < 10 → ∀ b : ℕ, b < 10 → Nat.digitChar a = Nat.digitChar b → a = b := by
  decide

theorem natDigits_inj : ∀ m n : ℕ, natDigits m = natDigits n → m = n := by
  intro m
  induction m using Nat.strong_induction_on with
  | _ m ih =>
    intro n heq
    by_cases hm : m < 10 <;> by_cases hn : n < 10
    · rw [natDigits_of_lt m hm, natDigits_of_lt n hn] at heq
      exact digitChar_inj m hm n hn (by simpa using heq)
    · rw [natDigits_of_lt m hm, natDigits_of_ge n (Nat.not_lt.mp hn)] at heq
      have := congrArg List.length heq
      simp at this
      exact absurd this (natDigits_ne_nil (n / 10))
    · rw [natDigits_of_ge m (Nat.not_lt.mp hm), natDigits_of_lt n hn] at heq
      have := congrArg List.length heq
      simp at this
      exact absurd this (natDigits_ne_nil (m / 10))
    · rw [natDigits_of_ge m (Nat.not_lt.mp hm), natDigits_of_ge n (Nat.not_lt.mp hn)] at heq
      obtain ⟨h1, h2⟩ := List.append_inj' heq (by simp)
      have hdiv : m / 10 = n / 10 :=
        ih (m / 10) (Nat.div_lt_self (by omega) (by omega)) (n / 10) h1
      have hmod : m % 10 = n % 10 :=
        digitChar_inj _ (Nat.mod_lt m (by omega)) _ (Nat.mod_lt n (by omega))
          (by simpa using h2)
      omega

theorem natToString_inj : ∀ m n : ℕ, natToString m = natToString n → m = n := by
  intro m n h
  exact natDigits_inj m n (congrArg String.data h)

theorem format02d_data (n : ℕ) (h : n < 100) :
    (format02d n).data = [Nat.digitChar (n / 10), Nat.digitChar (n % 10)] := by
  by_cases h10 : n < 10
  · have hd : n / 10 = 0 := Nat.div_eq_of_lt h10
    have hm : n % 10 = n := Nat.mod_eq_of_lt h10
    simp [format02d, h10, natDigits_of_lt n h10, hd, hm, Nat.digitChar]
  · have hge := Nat.not_lt.mp h10
    have hdlt : n / 10 < 10 := by omega
    simp [format02d, h10, natToString, natDigits_of_ge n hge, natDigits_of_lt _ hdlt]

theorem fmtHMS_data (a b c : ℕ) (ha : a < 100) (hb : b < 100) (hc : c < 100) :
    (fmtHMS a b c).data =
      [Nat.digitChar (a / 10), Nat.digitChar (a % 10), ':',
       Nat.digitChar (b / 10), Nat.digitChar (b % 10), ':',
       Nat.digitChar (c / 10), Nat.digitChar (c % 10)] := by
  simp [fmtHMS, String.data_append, format02d_data a ha, format02d_data b hb,
    format02d_data c hc]

theorem fmtHMS_inj (a b c a' b' c' : ℕ)
    (ha : a < 100) (hb : b < 100) (hc : c < 100)
    (ha' : a' < 100) (hb' : b' < 100) (hc' : c' < 100)
    (h : fmtHMS a b c = fmtHMS a' b' c') : a = a' ∧ b = b' ∧ c = c' := by
  have hd := congrArg String.data h
  rw [fmtHMS_data a b c ha hb hc, fmtHMS_data a' b' c' ha' hb' hc'] at hd
  simp only [List.cons.injEq, and_true] at hd
  obtain ⟨h1, h2, _, h3, h4, _, h5, h6⟩ := hd
  have e1 : a / 10 = a' / 10 := digitChar_inj _ (by omega) _ (by omega) h1
  have e2 : a % 10 = a' % 10 := digitChar_inj _ (by omega) _ (by omega) h2
  have e3 : b / 10 = b' / 10 := digitChar_inj _ (by omega) _ (by omega) h3
  have e4 : b % 10 = b' % 10 := digitChar_inj _ (by omega) _ (by omega) h4
  have e5 : c / 10 = c' / 10 := digitChar_inj _ (by omega) _ (by omega) h5
  have e6 : c % 10 = c' % 10 := digitChar_inj _ (by omega) _ (by omega) h6
  omega

/-- First-match lookup over an association list indexed by an injective key
function recovers the position's value. -/
theorem lookup_map_range {β : Type} :
    ∀ (N : ℕ) (f : ℕ → String) (g : ℕ → β) (k : ℕ), k < N →
      (∀ i j, i < N → j < N → f i = f j → i = j) →
      ((List.range N).map (fun i => (f i, g i))).lookup (f k) = some (g k) := by
  intro N
  induction N with
  | zero => intro f g k hk; omega
  | succ N ih =>
    intro f g k hk hinj
    rw [List.range_succ_eq_map, List.map_cons, List.map_map]
    cases k with
    | zero => simp [List.lookup_cons]
    | succ k =>
      have hne : (f (k + 1) == f 0) = false := by
        apply beq_false_of_ne
        intro heq
        have := hinj _ _ hk (by omega) heq
        omega
      rw [List.lookup_cons, hne]
      have := ih (fun i => f (i + 1)) (fun i => g (i + 1)) k (by omega)
        (fun i j hi hj hf => by
          have := hinj (i + 1) (j + 1) (by omega) (by omega) hf
          omega)
      simpa [Function.comp] using this

theorem time_stamps_eq : time_stamps = (List.range 86400).map hmsKey := by
  unfold time_stamps
  have inner : ∀ a,
      ((List.range 60).flatMap fun b => (List.range 60).map fun c => fmtHMS a b c)
        = (List.range 3600).map fun j => fmtHMS a (j / 60) (j % 60) := by
    intro a
    simpa using flatMap_range_map 60 (fun b c => fmtHMS a b c) 60
  have houter : ((List.range 24).flatMap fun a =>
      (List.range 60).flatMap fun b => (List.range 60).map fun c => fmtHMS a b c)
        = (List.range 24).flatMap fun a =>
            (List.range 3600).map fun j => fmtHMS a (j / 60) (j % 60) := by
    apply List.flatMap_congr
    intro a _
    exact inner a
  rw [houter]
  have := flatMap_range_map 3600 (fun a j => fmtHMS a (j / 60) (j % 60)) 24
  rw [this]
  apply List.map_congr_left
  intro n hn
  have h60 : n % 3600 % 60 = n % 60 := Nat.mod_mod_of_dvd n (by norm_num)
  simp [hmsKey, h60]

theorem time_stamps_length : time_stamps.length = 86400 := by
  rw [time_stamps_eq]; simp

theorem hmsKey_inj :
    ∀ i j, i < 86400 → j < 86400 → hmsKey i = hmsKey j → i = j := by
  intro i j hi hj h
  obtain ⟨e1, e2, e3⟩ := fmtHMS_inj _ _ _ _ _ _
    (by omega) (by omega) (by omega) (by omega) (by omega) (by omega) h
  omega

/-- The value the H:M:S table associates to `"hh:mm:ss"` is the
second-of-day index `3600*h + 60*m + s`. -/
theorem timeLookup_hms (h m s : ℕ) (hh : h < 24) (hm : m < 60) (hs : s < 60) :
    timeLookup (fmtHMS h m s) = some (3600 * h + 60 * m + s) := by
  unfold timeLookup time_dict
  rw [time_stamps_length, time_stamps_eq]
  have hzip := List.zip_map' hmsKey id (List.range 86400)
  rw [List.map_id] at hzip
  rw [hzip]
  have e1 : (3600 * h + 60 * m + s) / 3600 = h := by omega
  have e2 : (3600 * h + 60 * m + s) % 3600 / 60 = m := by omega
  have e3 : (3600 * h + 60 * m + s) % 60 = s := by omega
  have hkey : fmtHMS h m s = hmsKey (3600 * h + 60 * m + s) := by
    rw [hmsKey, e1, e2, e3]
  rw [hkey]
  exact lookup_map_range 86400 hmsKey id (3600 * h + 60 * m + s) (by omega) hmsKey_inj

/-! ### Lemmas about the feature codec -/

theorem uniq_step_nodup :
    ∀ (l acc : List String), acc.Nodup →
      (l.foldl (fun acc x => if x ∈ acc then acc else acc ++ [x]) acc).Nodup := by
  intro l
  induction l with
  | nil => intro acc h; simpa using h
  | cons a l ih =>
    intro acc h
    simp only [List.foldl_cons]
    by_cases ha : a ∈ acc
    · simpa [ha] using ih acc h
    · have : (acc ++ [a]).Nodup := by
        simp [List.nodup_append, h, List.disjoint_singleton, ha]
      simpa [ha] using ih (acc ++ [a]) this

theorem uniq_step_mem :
    ∀ (l acc : List String) (x : String),
      x ∈ l.foldl (fun acc x => if x ∈ acc then acc else acc ++ [x]) acc ↔
        x ∈ acc ∨ x ∈ l := by
  intro l
  induction l with
  | nil => intro acc x; simp
  | cons a l ih =>
    intro acc x
    simp only [List.foldl_cons]
    by_cases ha : a ∈ acc
    · rw [if_pos ha, ih]
      constructor
      · rintro (hx | hx)
        · exact Or.inl hx
        · exact Or.inr (List.mem_cons_of_mem a hx)
      · rintro (hx | hx)
        · exact Or.inl hx
        · rcases List.mem_cons.mp hx with rfl | hx
          · exact Or.inl ha
          · exact Or.inr hx
    · rw [if_neg ha, ih]
      simp only [List.mem_append, List.mem_singleton, List.mem_cons]
      tauto

theorem uniqueVals_nodup (l : List String) : (uniqueVals l).Nodup :=
  uniq_step_nodup l [] List.nodup_nil

theorem mem_uniqueVals (l : List String) (x : String) :
    x ∈ uniqueVals l ↔ x ∈ l := by
  unfold uniqueVals
  rw [uniq_step_mem]
  simp

/-- First-match lookup in a zip of a duplicate-free key list. -/
theorem lookup_zip_get :
    ∀ (ks vs : List String), ks.Nodup →
      ∀ (i : ℕ) (h1 : i < ks.length) (h2 : i < vs.length),
        (ks.zip vs).lookup (ks.get ⟨i, h1⟩) = some (vs.get ⟨i, h2⟩) := by
  intro ks
  induction ks with
  | nil => intro vs _ i h1; simp at h1
  | cons k ks ih =>
    intro vs hnd i h1 h2
    cases vs with
    | nil => simp at h2
    | cons v vs =>
      cases i with
      | zero => simp [List.zip_cons_cons]
      | succ i =>
        have hki : k ≠ ks.get ⟨i, by simpa using h1⟩ := by
          intro heq
          exact (List.nodup_cons.mp hnd).1 (heq ▸ List.get_mem ks i _)
        have hne : (ks.get ⟨i, by simpa using h1⟩ == k) = false :=
          beq_false_of_ne fun h => hki h.symm
        simp only [List.zip_cons_cons, List.get_cons_succ]
        rw [List.lookup_cons, hne]
        exact ih vs (List.nodup_cons.mp hnd).2 i _ _

/-- `(ks.zip vs).map (fun p => (p.2, p.1)) = vs.zip ks`. -/
theorem zip_map_swap :
    ∀ (ks vs : List String),
      ((ks.zip vs).map fun p => (p.2, p.1)) = vs.zip ks := by
  intro ks
  induction ks with
  | nil => intro vs; simp
  | cons k ks ih =>
    intro vs
    cases vs with
    | nil => simp
    | cons v vs => simp [List.zip_cons_cons, ih]

/-- The token list of `col_to_features` has no duplicates. -/
theorem ftr_codes_nodup ( feature_prefix : String) (n : ℕ) :
    ((List.range n).map fun i => feature_prefix ++ natToString i).Nodup := by
  apply List.Nodup.map _ (List.nodup_range n)
  intro i j h
  have hdata := congrArg String.data h
  simp only [String.data_append] at hdata
  have := List.append_cancel_left hdata
  exact natDigits_inj i j this

/-! ### Monotonicity of the nearest-rank percentile -/

theorem nearestRank_mono {x y : ℚ} (h : x ≤ y) : nearestRank x ≤ nearestRank y := by
  unfold nearestRank
  have : ⌊x + 1 / 2⌋ ≤ ⌊y + 1 / 2⌋ := Int.floor_le_floor (by linarith)
  exact Int.toNat_le_toNat this

theorem nearestRank_lt (x : ℚ) (n : ℕ) (hn : 0 < n) (hx : x ≤ (n : ℚ) - 1) :
    nearestRank x < n := by
  unfold nearestRank
  have hcast : (n : ℚ) - 1 = ((n - 1 : ℤ) : ℚ) := by
    push_cast [Nat.cast_sub hn]
    ring
  have h1 : ⌊x + 1 / 2⌋ ≤ ⌊((n - 1 : ℤ) : ℚ) + 1 / 2⌋ :=
    Int.floor_le_floor (by rw [← hcast]; linarith)
  have h2 : ⌊((n - 1 : ℤ) : ℚ) + 1 / 2⌋ = (n : ℤ) - 1 := by
    rw [Int.floor_int_add]
    norm_num
  omega

theorem nanpercentile_mono (xs : List ℚ) (q1 q2 : ℚ)
    (h0 : 0 ≤ q1) (h12 : q1 ≤ q2) (h100 : q2 ≤ 100)
    (x1 x2 : ℚ)
    (e1 : nanpercentile xs q1 = some x1) (e2 : nanpercentile xs q2 = some x2) :
    x1 ≤ x2 := by
  unfold nanpercentile at e1 e2
  by_cases hemp : xs.mergeSort.isEmpty
  · simp [hemp] at e1
  · simp only [hemp, Bool.false_eq_true, if_false, Option.some.injEq] at e1 e2
    have hlen : 0 < xs.mergeSort.length := by
      rw [List.length_pos]
      intro hnil
      rw [hnil] at hemp
      simp at hemp
    set n := xs.mergeSort.length with hn
    have hn1 : (0 : ℚ) ≤ (n : ℚ) - 1 := by
      have : (1 : ℚ) ≤ (n : ℚ) := by exact_mod_cast hlen
      linarith
    have hv1 : q1 / 100 * ((n : ℚ) - 1) ≤ q2 / 100 * ((n : ℚ) - 1) := by
      apply mul_le_mul_of_nonneg_right _ hn1
      linarith
    have hv2 : q2 / 100 * ((n : ℚ) - 1) ≤ (n : ℚ) - 1 := by
      nlinarith
    have hr12 := nearestRank_mono hv1
    have hb2 : nearestRank (q2 / 100 * ((n : ℚ) - 1)) < n :=
      nearestRank_lt _ n hlen hv2
    have hb1 : nearestRank (q1 / 100 * ((n : ℚ) - 1)) < n :=
      lt_of_le_of_lt hr12 hb2
    rw [List.getD_eq_get _ _ hb1] at e1
    rw [List.getD_eq_get _ _ hb2] at e2
    have hsorted : xs.mergeSort.Sorted (· ≤ ·) := List.sorted_mergeSort' xs
    have := hsorted.rel_get_of_le
      (a := ⟨nearestRank (q1 / 100 * ((n : ℚ) - 1)), hb1⟩)
      (b := ⟨nearestRank (q2 / 100 * ((n : ℚ) - 1)), hb2⟩)
      (Fin.mk_le_mk.mpr hr12)
    rw [e1, e2] at this
    exact this

/-! ### Claim theorems -/

/-- C7: for a record with no visit-end anchoring and no time-of-day term,
the timeline value is (entity index day-offset + record day-offset) times
the granularity multiplier; with index-offset 0 and granularity `dfi` the
output is exactly the record day-offset, and with index-offset 2, record
day-offset 1 and granularity `hfi` it is (2+1)*24 = 72. -/
theorem C7_timing_day_offset :
    (∀ (lvl : AggLvl) (idx d los : ℚ),
      get_timing_row lvl (get_visit_timing lvl idx) false los (some d) none
        = some ((idx + d) * from_days lvl)) ∧
    (∀ d los : ℚ,
      get_timing_row .dfi (get_visit_timing .dfi 0) false los (some d) none
        = some d) ∧
    (∀ los : ℚ,
      get_timing_row .hfi (get_visit_timing .hfi 2) false los (some 1) none
        = some 72) := by
  refine ⟨?_, ?_, ?_⟩
  · intro lvl idx d los
    simp only [get_timing_row, get_visit_timing, Bool.false_eq_true, if_false,
      Option.some.injEq]
    ring
  · intro d los
    simp only [get_timing_row, get_visit_timing, from_days, Bool.false_eq_true,
      if_false, Option.some.injEq]
    ring
  · intro los
    simp only [get_timing_row, get_visit_timing, from_days, Bool.false_eq_true,
      if_false, Option.some.injEq]
    norm_num

/-- C9 (code bug): after `__init__` the id table is a `distributed`
Future, so the runtime granularity reset does not succeed: the recompute
subscripts the Future and raises a TypeError, leaving `agg_level` updated
but `visit_timing` stale (still the old table at the old level); and even
the state the reset was trying to build — an un-`compute`d dataframe in
`visit_timing` — would break every subsequent timing computation at the
`.result()` join, while timing against the initial state works. -/
theorem C9_reset_agg_level_raises (agg_lvl new_level : AggLvl)
    (id_days : List (ℕ × ℚ)) (pat : ℕ) (eov : Bool) (los : ℚ)
    (day : Option ℚ) (time : Option String) :
    (reset_agg_level (init_state agg_lvl id_days) new_level).2
      = some ("TypeError: a distributed Future is not subscriptable") ∧
    (reset_agg_level (init_state agg_lvl id_days) new_level).1.agg_level
      = new_level ∧
    (reset_agg_level (init_state agg_lvl id_days) new_level).1.visit_timing
      = Handle.future (get_visit_timing_table agg_lvl id_days) ∧
    state_get_timing (init_state agg_lvl id_days) pat eov los day time
      = Except.ok (((get_visit_timing_table agg_lvl id_days).lookup pat).bind
          fun v => get_timing_row agg_lvl v eov los day time) ∧
    state_get_timing
        { agg_level := new_level
          id := Handle.future id_days
          visit_timing := Handle.frame (get_visit_timing_table new_level id_days) }
        pat eov los day time
      = Except.error ("AttributeError: a dask dataframe has no result attribute") :=
  ⟨rfl, rfl, rfl, rfl, rfl⟩

/-- C2 (amended): the intra-day lookup value of `"hh:mm:ss"` is the
second-of-day index `3600*h + 60*m + s` (not the minute-of-day index), and
the added term is that value divided by `from_seconds[agg_level]`. -/
theorem C2_time_contribution (lvl : AggLvl) (vt los d : ℚ) (eov : Bool)
    (h m s : ℕ) (hh : h < 24) (hm : m < 60) (hs : s < 60) :
    get_timing_row lvl vt eov los (some d) (some (fmtHMS h m s))
      = some ((if eov then vt + los * from_days lvl else vt)
          + d * from_days lvl
          + ((3600 * h + 60 * m + s : ℕ) : ℚ) / from_seconds lvl) := by
  simp only [get_timing_row, timeLookup_hms h m s hh hm hs]
  rfl

theorem C2_witness :
    (1 : ℕ) < 24 ∧ (2 : ℕ) < 60 ∧ (3 : ℕ) < 60 ∧
    get_timing_row .hfi 5 false 0 (some 2) (some (fmtHMS 1 2 3))
      = some ((if false then (5 : ℚ) + 0 * from_days .hfi else 5)
          + 2 * from_days .hfi
          + ((3600 * 1 + 60 * 2 + 3 : ℕ) : ℚ) / from_seconds .hfi) :=
  ⟨by norm_num, by norm_num, by norm_num,
    C2_time_contribution .hfi 5 0 2 false 1 2 3 (by norm_num) (by norm_num)
      (by norm_num)⟩

/-- C2 (counterexample): the table maps `"00:01:00"` to 60, its
second-of-day index, not to its minute-of-day index 0*60+1 = 1. -/
theorem C2_counterexample :
    timeLookup (fmtHMS 0 1 0) = some 60 ∧ (60 : ℕ) ≠ 0 * 60 + 1 :=
  ⟨timeLookup_hms 0 1 0 (by norm_num) (by norm_num) (by norm_num), by norm_num⟩

/-- C10 (amended): a negative day-from-index sum wraps modulo 2^32 to a
large non-negative value, and the derived hour and minute values are 24x
and 1440x the wrapped value reduced modulo 2^32 again (not the plain
products, which overflow). -/
theorem C10_uint32_wrap (dfi_orig day : ℤ)
    (hneg : dfi_orig + day < 0) (hbound : -(2 ^ 32) ≤ dfi_orig + day) :
    (get_times_day dfi_orig day).1 = (2 ^ 32 + (dfi_orig + day)).toNat ∧
    (get_times_day dfi_orig day).2.1
      = 24 * (get_times_day dfi_orig day).1 % 2 ^ 32 ∧
    (get_times_day dfi_orig day).2.2
      = 1440 * (get_times_day dfi_orig day).1 % 2 ^ 32 := by
  refine ⟨?_, ?_, ?_⟩
  · simp only [get_times_day, u32]
    omega
  · simp only [get_times_day, u32]
    ring_nf
  · simp only [get_times_day, u32]
    rw [Nat.mod_mul_mod]
    ring_nf

theorem C10_witness :
    (0 : ℤ) + (-1) < 0 ∧ -(2 ^ 32) ≤ (0 : ℤ) + (-1) ∧
    ((get_times_day 0 (-1)).1 = ((2 : ℤ) ^ 32 + (0 + (-1))).toNat ∧
     (get_times_day 0 (-1)).2.1 = 24 * (get_times_day 0 (-1)).1 % 2 ^ 32 ∧
     (get_times_day 0 (-1)).2.2 = 1440 * (get_times_day 0 (-1)).1 % 2 ^ 32) :=
  ⟨by norm_num, by norm_num, C10_uint32_wrap 0 (-1) (by norm_num) (by norm_num)⟩

/-- C10 (counterexample): at `dfi_orig = 0`, `day = -1` the stored day
wraps to 4294967295, but the hour value is not 24 times that wrapped value
(it wraps again), and the minute value is not 1440 times it. -/
theorem C10_counterexample :
    (get_times_day 0 (-1)).1 = 4294967295 ∧
    (get_times_day 0 (-1)).2.1 ≠ 24 * 4294967295 ∧
    (get_times_day 0 (-1)).2.2 ≠ 1440 * 4294967295 := by
  refine ⟨?_, ?_, ?_⟩ <;> decide

/-- C3: two runs of the bootstrap driver with the same master seed,
targets and iteration count derive the same per-iteration seed sequence
(both in `boot_cis` and in `boot_roc`) and therefore pass identical
resampled index sets to the sampling primitive in the same order. -/
theorem C3_reproducible (randint : ℕ → ℕ → ℕ → ℕ → List ℕ)
    (bs : List ℚ → Option (List ℚ) → ℕ → List ℕ)
    (targets : List ℚ) (sample_by : Option (List ℚ))
    (seed1 seed2 n : ℕ) (h : seed1 = seed2) :
    derive_seeds randint seed1 n = derive_seeds randint seed2 n ∧
    derive_seeds_roc randint seed1 n = derive_seeds_roc randint seed2 n ∧
    boot_index_sets randint bs targets sample_by seed1 n
      = boot_index_sets randint bs targets sample_by seed2 n := by
  subst h
  exact ⟨rfl, rfl, rfl⟩

theorem C3_witness :
    derive_seeds (fun s lo hi k => (List.range k).map fun i => lo + (s + i) % hi)
        10221983 100
      = derive_seeds (fun s lo hi k => (List.range k).map fun i => lo + (s + i) % hi)
        10221983 100 ∧
    derive_seeds_roc (fun s lo hi k => (List.range k).map fun i => lo + (s + i) % hi)
        10221983 100
      = derive_seeds_roc (fun s lo hi k => (List.range k).map fun i => lo + (s + i) % hi)
        10221983 100 ∧
    boot_index_sets (fun s lo hi k => (List.range k).map fun i => lo + (s + i) % hi)
        (fun t _ s => List.range (s % (t.length + 1))) [1, 0, 1, 1, 0] none
        10221983 100
      = boot_index_sets (fun s lo hi k => (List.range k).map fun i => lo + (s + i) % hi)
        (fun t _ s => List.range (s % (t.length + 1))) [1, 0, 1, 1, 0] none
        10221983 100 :=
  C3_reproducible _ _ _ _ 10221983 10221983 100 rfl

/-- C4 (amended): an unknown CI method name is rejected with an assertion
error and never silently falls back to a default method (no interval
computation happens), but the rejection is not fail-fast: the bootstrap
resampling and metric computation have already run before the check. -/
theorem C4_unknown_method (method : String) (hm : method ∉ methods) :
    (boot_cis_trace method).2
      = some ("Method must be pct, diff, or bca.") ∧
    Phase.ci_computation ∉ (boot_cis_trace method).1 ∧
    Phase.resampling ∈ (boot_cis_trace method).1 := by
  unfold boot_cis_trace
  rw [if_neg hm]
  exact ⟨rfl, by decide, by decide⟩

theorem C4_witness :
    ("foo") ∉ methods ∧
    ((boot_cis_trace ("foo")).2 = some ("Method must be pct, diff, or bca.") ∧
     Phase.ci_computation ∉ (boot_cis_trace ("foo")).1 ∧
     Phase.resampling ∈ (boot_cis_trace ("foo")).1) :=
  ⟨by decide, C4_unknown_method ("foo") (by decide)⟩

/-- C4 (counterexample): with an invalid method the error is raised, but
only after the resampling phase — the full trace shows the point estimate,
seed derivation, resampling and metric computation all happening before
the method check, contradicting the claimed fail-fast ordering. -/
theorem C4_counterexample :
    boot_cis_trace ("foo")
      = ([Phase.point_estimate, Phase.seed_derivation, Phase.resampling,
          Phase.metric_computation, Phase.method_check],
         some ("Method must be pct, diff, or bca.")) ∧
    Phase.resampling ∈ (boot_cis_trace ("foo")).1 := by
  refine ⟨?_, ?_⟩ <;> decide

/-- C8: a per-metric acceleration denominator that is exactly zero gets
1e-6 substituted before dividing (so the division is by a nonzero value),
and a bias-correction z0 that would be ±∞ (bootstrap fraction 0 or 1,
where `norm.ppf` returns ∓∞) is set to 0. -/
theorem C8_numerical_guards :
    (∀ d : ℚ, d = 0 →
      fix_denom d = 1 / 1000000 ∧ fix_denom d ≠ 0 ∧
      ∀ numer : ℚ, acc_of numer d = numer * 1000000) ∧
    (∀ (ppf : ℚ → FVal) (p : ℚ), ppf 0 = .ninf → ppf 1 = .pinf →
      (p = 0 ∨ p = 1) → fix_z0 (ppf p) = 0) := by
  constructor
  · rintro d rfl
    refine ⟨by norm_num [fix_denom], by norm_num [fix_denom], ?_⟩
    intro numer
    have hd : fix_denom 0 = 1 / 1000000 := by norm_num [fix_denom]
    rw [acc_of, hd, div_eq_mul_inv, one_div, inv_inv]
  · rintro ppf p h0 h1 (rfl | rfl)
    · rw [h0]; rfl
    · rw [h1]; rfl

theorem C8_witness :
    ((0 : ℚ) = 0 ∧
      (fix_denom 0 = 1 / 1000000 ∧ fix_denom 0 ≠ 0 ∧
        ∀ numer : ℚ, acc_of numer 0 = numer * 1000000)) ∧
    ((fun q : ℚ => if q = 0 then FVal.ninf else if q = 1 then FVal.pinf
        else FVal.finite q) 0 = FVal.ninf ∧
      fix_z0 ((fun q : ℚ => if q = 0 then FVal.ninf else if q = 1 then FVal.pinf
        else FVal.finite q) 0) = 0) :=
  ⟨⟨rfl, C8_numerical_guards.1 0 rfl⟩,
    ⟨by norm_num,
      C8_numerical_guards.2
        (fun q : ℚ => if q = 0 then FVal.ninf else if q = 1 then FVal.pinf
          else FVal.finite q) 0 (by norm_num) (by norm_num) (Or.inl rfl)⟩⟩

/-- C1: with bias-correction z0 = 0 and acceleration 0, the BCa adjusted
percentile ranks collapse to `(a/2)*100` and `(1-a/2)*100 = 100-(a/2)*100`,
so for any percentile routine `P` (numpy's `nanpercentile` at the chosen
interpolation) the BCa bounds equal the `"pct"` method's bounds on the
same scores. -/
theorem C1_bca_degenerates_to_pct (cdf ppf : ℚ → ℚ)
    (P : List ℚ → ℚ → Option ℚ) (scores : List ℚ) (a : ℚ)
    (ha0 : 0 < a) (ha1 : a < 1)
    (hinv : ∀ x : ℚ, 0 < x → x < 1 → cdf (ppf x) = x) :
    bca_lower_q cdf ppf 0 0 a = a / 2 * 100 ∧
    bca_upper_q cdf ppf 0 0 a = 100 - a / 2 * 100 ∧
    P scores (bca_lower_q cdf ppf 0 0 a) = P scores (a / 2 * 100) ∧
    P scores (bca_upper_q cdf ppf 0 0 a) = P scores (100 - a / 2 * 100) := by
  have hl : bca_lower_q cdf ppf 0 0 a = a / 2 * 100 := by
    show cdf (0 + (0 + ppf (a / 2)) / (1 - 0 * (0 + ppf (a / 2)))) * 100 = a / 2 * 100
    simp only [zero_add, zero_mul, sub_zero, div_one]
    rw [hinv (a / 2) (by linarith) (by linarith)]
  have hu : bca_upper_q cdf ppf 0 0 a = 100 - a / 2 * 100 := by
    show cdf (0 + (0 + ppf (1 - a / 2)) / (1 - 0 * (0 + ppf (1 - a / 2)))) * 100
      = 100 - a / 2 * 100
    simp only [zero_add, zero_mul, sub_zero, div_one]
    rw [hinv (1 - a / 2) (by linarith) (by linarith)]
    ring
  exact ⟨hl, hu, by rw [hl], by rw [hu]⟩

theorem C1_witness :
    (0 : ℚ) < 1 / 2 ∧ (1 / 2 : ℚ) < 1 ∧
    (bca_lower_q id id 0 0 (1 / 2) = 1 / 2 / 2 * 100 ∧
     bca_upper_q id id 0 0 (1 / 2) = 100 - 1 / 2 / 2 * 100 ∧
     nanpercentile [1, 2] (bca_lower_q id id 0 0 (1 / 2))
       = nanpercentile [1, 2] (1 / 2 / 2 * 100) ∧
     nanpercentile [1, 2] (bca_upper_q id id 0 0 (1 / 2))
       = nanpercentile [1, 2] (100 - 1 / 2 / 2 * 100)) :=
  ⟨by norm_num, by norm_num,
    C1_bca_degenerates_to_pct id id nanpercentile [1, 2] (1 / 2)
      (by norm_num) (by norm_num) (fun x _ _ => rfl)⟩

theorem pct_lower_eval1 : pct_lower [0, 1, 2, 3] (1 / 10) = some 0 := by
  have hsort : ([0, 1, 2, 3] : List ℚ).mergeSort = [0, 1, 2, 3] :=
    List.mergeSort_eq_self (by decide)
  unfold pct_lower nanpercentile
  rw [hsort]
  have hr : nearestRank (1 / 10 / 2 * 100 / 100 * ((([0, 1, 2, 3] : List ℚ).length : ℚ) - 1)) = 0 := by
    unfold nearestRank
    have h13 : (1 / 10 / 2 * 100 / 100 * ((([0, 1, 2, 3] : List ℚ).length : ℚ) - 1)) + 1 / 2 = 13 / 20 := by
      norm_num
    rw [h13]
    norm_num [Int.floor_eq_zero_iff]
  simp only [hr]
  simp [List.getD]

theorem pct_lower_eval2 : pct_lower [0, 1, 2, 3] (9 / 10) = some 1 := by
  have hsort : ([0, 1, 2, 3] : List ℚ).mergeSort = [0, 1, 2, 3] :=
    List.mergeSort_eq_self (by decide)
  unfold pct_lower nanpercentile
  rw [hsort]
  have hr : nearestRank (9 / 10 / 2 * 100 / 100 * ((([0, 1, 2, 3] : List ℚ).length : ℚ) - 1)) = 1 := by
    unfold nearestRank
    have h37 : (9 / 10 / 2 * 100 / 100 * ((([0, 1, 2, 3] : List ℚ).length : ℚ) - 1)) + 1 / 2 = 37 / 20 := by
      norm_num
    rw [h37]
    have : ⌊(37 / 20 : ℚ)⌋ = 1 := by
      rw [Int.floor_eq_iff] <;> norm_num
    rw [this]
    rfl
  simp only [hr]
  simp [List.getD]


/-- C5 (amended): with method `"pct"` and the code's default nearest
interpolation, for significance levels `a1 < a2` the lower bound at `a1`
is less than or equal to the lower bound at `a2`: the lower bound is
non-INCREASING (not non-decreasing) as the significance level decreases. -/
theorem C5_pct_lower_monotone (scores : List ℚ) (a1 a2 x1 x2 : ℚ)
    (h0 : 0 < a1) (h12 : a1 < a2) (h2 : a2 < 1)
    (e1 : pct_lower scores a1 = some x1) (e2 : pct_lower scores a2 = some x2) :
    x1 ≤ x2 :=
  nanpercentile_mono scores (a1 / 2 * 100) (a2 / 2 * 100)
    (by linarith) (by linarith) (by linarith) x1 x2 e1 e2

theorem C5_witness :
    (0 : ℚ) < 1 / 10 ∧ (1 / 10 : ℚ) < 9 / 10 ∧ (9 / 10 : ℚ) < 1 ∧ (0 : ℚ) ≤ 1 :=
  ⟨by norm_num, by norm_num, by norm_num,
    C5_pct_lower_monotone [0, 1, 2, 3] (1 / 10) (9 / 10) 0 1
      (by norm_num) (by norm_num) (by norm_num) pct_lower_eval1 pct_lower_eval2⟩

/-- C5 (counterexample): on scores `[0,1,2,3]` with `a1 = 1/10 < a2 = 9/10`,
the lower bound at `a1` is 0 and at `a2` is 1, so the lower bound at the
smaller significance level is NOT greater than or equal to the one at the
larger level. -/
theorem C5_counterexample :
    pct_lower [0, 1, 2, 3] (1 / 10) = some 0 ∧
    pct_lower [0, 1, 2, 3] (9 / 10) = some 1 ∧
    ¬ ((0 : ℚ) ≥ 1) :=
  ⟨pct_lower_eval1, pct_lower_eval2, by norm_num⟩

/-- C6: the token dictionary built by `col_to_features` pairs pairwise
distinct tokens `prefix + str(i)` with the pairwise distinct
(bucket-augmented) text values of the table, and for every row, the token
emitted by `condense_features` looks up in the dictionary to exactly the
row's (bucket-augmented) text value — so its categorical part matches the
row's original categorical value up to the appended bucket suffix. -/
theorem C6_codec_roundtrip (text : List String) (fp : String) :
    ((col_to_features text fp).map Prod.fst).Nodup ∧
    ((col_to_features text fp).map Prod.snd).Nodup ∧
    (∀ i, i < text.length →
      ∃ tok v, text[i]? = some v ∧
        (condense_features text (col_to_features text fp))[i]? = some (some tok) ∧
        (col_to_features text fp).lookup tok = some v) := by
  have hcd : col_to_features text fp
      = (((List.range (uniqueVals text).length).map
          fun i => fp ++ natToString i).zip (uniqueVals text)) := rfl
  set uc := uniqueVals text with huc
  set fc := (List.range uc.length).map (fun i => fp ++ natToString i) with hfc
  have hucnd : uc.Nodup := uniqueVals_nodup text
  have hfclen : fc.length = uc.length := by simp [hfc]
  have hfcnd : fc.Nodup := ftr_codes_nodup fp uc.length
  refine ⟨?_, ?_, ?_⟩
  · rw [hcd, List.map_fst_zip _ _ (le_of_eq hfclen)]
    exact hfcnd
  · rw [hcd, List.map_snd_zip _ _ (le_of_eq hfclen.symm)]
    exact hucnd
  · intro i hi
    have hvi : text[i]? = some (text.get ⟨i, hi⟩) := by
      rw [List.getElem?_eq_getElem hi]
      rfl
    have hmem : text.get ⟨i, hi⟩ ∈ uc :=
      (mem_uniqueVals text _).mpr (List.get_mem text i hi)
    obtain ⟨⟨j, hj⟩, hjv⟩ := List.mem_iff_get.mp hmem
    have hj2 : j < fc.length := by rw [hfclen]; exact hj
    refine ⟨fc.get ⟨j, hj2⟩, text.get ⟨i, hi⟩, hvi, ?_, ?_⟩
    · unfold condense_features
      rw [List.getElem?_map, hvi, Option.map_some']
      rw [hcd, zip_map_swap fc uc, ← hjv]
      rw [lookup_zip_get uc fc hucnd j hj hj2]
    · rw [hcd, lookup_zip_get fc uc hfcnd j hj2 hj, hjv]


theorem C6_witness :
    ((col_to_features ["a", "b", "a"] ("dx")).map Prod.fst).Nodup ∧
    ((col_to_features ["a", "b", "a"] ("dx")).map Prod.snd).Nodup ∧
    ((0 : ℕ) < (["a", "b", "a"] : List String).length ∧
     ∃ tok v, (["a", "b", "a"] : List String)[0]? = some v ∧
       (condense_features ["a", "b", "a"]
         (col_to_features ["a", "b", "a"] ("dx")))[0]? = some (some tok) ∧
       (col_to_features ["a", "b", "a"] ("dx")).lookup tok = some v) := by
  have h := C6_codec_roundtrip ["a", "b", "a"] ("dx")
  exact ⟨h.1, h.2.1, by norm_num, h.2.2 0 (by norm_num)⟩

end Multi


